import Mathlib

/-!
Formal model of the scientific-voyager concurrent job-processing subsystem:
the in-memory priority queue and worker (`queue/memory_queue.py`), the queue
manager (`queue/literature_queue.py`), the job DTOs
(`interfaces/queue_dto.py`), the retry executor and rate limiter
(`utils/error_handling.py`), and the two-tier cache (`utils/cache.py`).

Conventions of the shallow embedding:
* Wall-clock instants (`time.time()` / `datetime.now()`) are explicit `Nat`
  arguments threaded through every operation that reads the clock.
* Python `None` is `Option.none`; a Python value that may be `None` has type
  `Option V`.
* Python dicts are association lists with distinct keys; `alSet` / `alErase` /
  `alLookup` implement dict assignment, deletion and lookup.
* Exceptions are explicit result constructors (`Except`, or dedicated result
  inductives) rather than control flow.
* Logging and the statistics bookkeeping (`_update_stats`, `processing_times`,
  `wait_times`) are omitted: they do not affect the state any claim mentions.
-/

/-- Dict lookup: first binding of the key, if any. -/
def alLookup {α : Type} (l : List (String × α)) (k : String) : Option α :=
  match l with
  | [] => none
  | (k', v) :: t => if k' = k then some v else alLookup t k

/-- Dict assignment `d[k] = v`: replace the binding of `k`, or append it. -/
def alSet {α : Type} (l : List (String × α)) (k : String) (v : α) :
    List (String × α) :=
  match l with
  | [] => [(k, v)]
  | (k', v') :: t => if k' = k then (k, v) :: t else (k', v') :: alSet t k v

/-- Dict deletion `del d[k]`: drop the binding of `k`. -/
def alErase {α : Type} (l : List (String × α)) (k : String) :
    List (String × α) :=
  match l with
  | [] => []
  | (k', v') :: t => if k' = k then t else (k', v') :: alErase t k

/-! ## Cache model (`utils/cache.py`) -/

/-- `CacheItem`: a value plus an absolute expiry instant
(`expiry = time.time() + ttl` at construction). -/
structure CacheItem (V : Type) where
  value : Option V
  expiry : Nat
deriving DecidableEq

/-- `CacheItem.__init__`: `self.expiry = time.time() + ttl`. -/
def CacheItem.make {V : Type} (value : Option V) (now ttl : Nat) : CacheItem V :=
  { value := value, expiry := now + ttl }

/-- `CacheItem.is_expired`: `time.time() > self.expiry`. -/
def CacheItem.is_expired {V : Type} (it : CacheItem V) (now : Nat) : Bool :=
  it.expiry < now

/-- Python `ttl or self.default_ttl`: `None` and `0` are both falsy. -/
def ttlOrDefault (ttl : Option Nat) (default_ttl : Nat) : Nat :=
  match ttl with
  | none => default_ttl
  | some t => if t = 0 then default_ttl else t

/-- `MemoryCache`: dict of `CacheItem`s plus the default TTL. -/
structure MemoryCache (V : Type) where
  cache : List (String × CacheItem V)
  default_ttl : Nat
deriving DecidableEq

/-- `MemoryCache.get`: miss on absent key; an expired entry is deleted and
reported as a miss; otherwise the stored value is returned (which is `none`
if the stored Python value was `None`). -/
def MemoryCache.get {V : Type} (c : MemoryCache V) (k : String) (now : Nat) :
    Option V × MemoryCache V :=
  match alLookup c.cache k with
  | none => (none, c)
  | some it =>
    if it.is_expired now then (none, { c with cache := alErase c.cache k })
    else (it.value, c)

/-- `MemoryCache.set`: always creates a fresh `CacheItem` with TTL
`ttl or self.default_ttl`. -/
def MemoryCache.set {V : Type} (c : MemoryCache V) (k : String) (v : Option V)
    (ttl : Option Nat) (now : Nat) : MemoryCache V :=
  { c with cache := alSet c.cache k (CacheItem.make v now (ttlOrDefault ttl c.default_ttl)) }

/-- `MemoryCache.cleanup`: delete every expired item, returning the count. -/
def MemoryCache.cleanup {V : Type} (c : MemoryCache V) (now : Nat) :
    Nat × MemoryCache V :=
  let expired := c.cache.filter (fun p => p.2.is_expired now)
  (expired.length, { c with cache := c.cache.filter (fun p => !p.2.is_expired now) })

/-- A disk-cache file: self-describing entry `{key, value, created, expiry}`.
The store is keyed by the cache key itself (the MD5 filename in the source is
an injective rendering of the key). -/
structure DiskEntry (V : Type) where
  key : String
  value : Option V
  created : Nat
  expiry : Nat
deriving DecidableEq

/-- `DiskCache`: directory of self-describing entries plus default TTL.
I/O failures and pickle corruption are outside this pure model. -/
structure DiskCache (V : Type) where
  entries : List (String × DiskEntry V)
  default_ttl : Nat
deriving DecidableEq

/-- The expiry test of `DiskCache.get`: `expiry and time.time() > expiry`
(a zero `expiry` is falsy and disables the check). -/
def DiskEntry.is_stale {V : Type} (e : DiskEntry V) (now : Nat) : Bool :=
  e.expiry != 0 && e.expiry < now

/-- `DiskCache.get`: miss on absent file; an expired entry is deleted and
reported as a miss; otherwise the stored value is returned. -/
def DiskCache.get {V : Type} (d : DiskCache V) (k : String) (now : Nat) :
    Option V × DiskCache V :=
  match alLookup d.entries k with
  | none => (none, d)
  | some e =>
    if e.is_stale now then (none, { d with entries := alErase d.entries k })
    else (e.value, d)

/-- `DiskCache.set`: write a fresh self-describing entry with TTL
`ttl or self.default_ttl`. -/
def DiskCache.set {V : Type} (d : DiskCache V) (k : String) (v : Option V)
    (ttl : Option Nat) (now : Nat) : DiskCache V :=
  let e : DiskEntry V :=
    { key := k, value := v, created := now,
      expiry := now + ttlOrDefault ttl d.default_ttl }
  { d with entries := alSet d.entries k e }

/-- `DiskCache.cleanup`: delete every expired entry, returning the count. -/
def DiskCache.cleanup {V : Type} (d : DiskCache V) (now : Nat) :
    Nat × DiskCache V :=
  let stale := d.entries.filter (fun p => p.2.is_stale now)
  (stale.length, { d with entries := d.entries.filter (fun p => !p.2.is_stale now) })

/-- `CacheManager`: the two tiers plus the amortized-cleanup bookkeeping. -/
structure CacheManager (V : Type) where
  memory_cache : MemoryCache V
  disk_cache : DiskCache V
  cleanup_interval : Nat
  last_cleanup : Nat
deriving DecidableEq

/-- `CacheManager._maybe_cleanup`: sweep both tiers once more than
`cleanup_interval` has elapsed since the last cleanup. -/
def CacheManager.maybe_cleanup {V : Type} (m : CacheManager V) (now : Nat) :
    CacheManager V :=
  if m.cleanup_interval < now - m.last_cleanup then
    { m with memory_cache := (m.memory_cache.cleanup now).2,
             disk_cache := (m.disk_cache.cleanup now).2,
             last_cleanup := now }
  else m

/-- `CacheManager.get`: amortized cleanup, then memory tier; on a memory miss
with `use_disk`, the disk tier; a disk hit is promoted into the memory tier
(with the memory default TTL) before returning. -/
def CacheManager.get {V : Type} (m : CacheManager V) (k : String)
    (use_disk : Bool) (now : Nat) : Option V × CacheManager V :=
  let m1 := m.maybe_cleanup now
  let mres := m1.memory_cache.get k now
  match mres.1 with
  | some v => (some v, { m1 with memory_cache := mres.2 })
  | none =>
    if use_disk then
      let dres := m1.disk_cache.get k now
      match dres.1 with
      | some v =>
        (some v, { m1 with memory_cache := mres.2.set k (some v) none now,
                           disk_cache := dres.2 })
      | none => (none, { m1 with memory_cache := mres.2, disk_cache := dres.2 })
    else (none, { m1 with memory_cache := mres.2 })

/-- `CacheManager.set`: always write the memory tier; write the disk tier only
when `use_disk`. -/
def CacheManager.set {V : Type} (m : CacheManager V) (k : String) (v : Option V)
    (memory_ttl disk_ttl : Option Nat) (use_disk : Bool) (now : Nat) :
    CacheManager V :=
  let m1 := { m with memory_cache := m.memory_cache.set k v memory_ttl now }
  if use_disk then { m1 with disk_cache := m1.disk_cache.set k v disk_ttl now }
  else m1

/-- One call of a function wrapped by the `cached` decorator: probe the
manager under the derived key; on a hit return the cached value without
invoking the function; on a miss invoke it, store the result in both
requested tiers, and return it. The middle component records whether the
wrapped function was invoked. -/
def cachedCall {V : Type} (m : CacheManager V) (key : String)
    (f : Unit → Option V) (ttl : Nat) (use_disk : Bool) (now : Nat) :
    Option V × Bool × CacheManager V :=
  let gres := m.get key use_disk now
  match gres.1 with
  | some v => (some v, false, gres.2)
  | none =>
    let result := f ()
    (result, true, gres.2.set key result (some ttl) (some ttl) use_disk now)

/-! ## Job model (`interfaces/queue_interface.py`, `interfaces/queue_dto.py`) -/

/-- `JobStatus` enum. -/
inductive JobStatus where
  | pending
  | running
  | completed
  | failed
  | cancelled
deriving DecidableEq

/-- `JobPriority` enum; `value` gives the declared ordinals
LOW = 0 < NORMAL = 1 < HIGH = 2 < CRITICAL = 3. -/
inductive JobPriority where
  | low
  | normal
  | high
  | critical
deriving DecidableEq

/-- The `int` value of a `JobPriority` member. -/
def JobPriority.value : JobPriority → Nat
  | .low => 0
  | .normal => 1
  | .high => 2
  | .critical => 3

/-- `JobDTO`: one unit of work. The payload is opaque (`P`); `result` values
have type `V`. `metadata` is folded into the opaque payload. -/
structure JobDTO (P V : Type) where
  payload : P
  priority : JobPriority
  status : JobStatus
  job_id : String
  created_at : Nat
  updated_at : Nat
  started_at : Option Nat
  completed_at : Option Nat
  result : Option V
  error : Option String
  retries : Nat
  max_retries : Nat
  tags : List String
deriving DecidableEq

/-- `JobDTO.update_status`: set the status and `updated_at`; record
`started_at` on the first RUNNING transition only and `completed_at` on the
first terminal (COMPLETED/FAILED/CANCELLED) transition only. -/
def JobDTO.update_status {P V : Type} (j : JobDTO P V) (s : JobStatus)
    (now : Nat) : JobDTO P V :=
  if s = .running ∧ j.started_at = none then
    { j with status := s, updated_at := now, started_at := some now }
  else if (s = .completed ∨ s = .failed ∨ s = .cancelled) ∧ j.completed_at = none then
    { j with status := s, updated_at := now, completed_at := some now }
  else { j with status := s, updated_at := now }

/-- `JobDTO.can_retry`: FAILED and `retries < max_retries`. -/
def JobDTO.can_retry {P V : Type} (j : JobDTO P V) : Bool :=
  j.status = JobStatus.failed && j.retries < j.max_retries

/-- `JobDTO.increment_retry`: bump `retries`, reset the status to PENDING,
touch `updated_at`, clear `error`. -/
def JobDTO.increment_retry {P V : Type} (j : JobDTO P V) (now : Nat) :
    JobDTO P V :=
  { j with retries := j.retries + 1, status := JobStatus.pending,
           updated_at := now, error := none }

/-- `BatchJobResultDTO`: member job ids plus aggregate fields recomputed by
`update_from_jobs`. Maps are association lists. -/
structure BatchJobResultDTO (V : Type) where
  job_ids : List String
  completed : Nat
  failed : Nat
  pending : Nat
  running : Nat
  cancelled : Nat
  results : List (String × Option V)
  errors : List (String × String)
deriving DecidableEq

/-- `BatchJobResultDTO.update_from_jobs`: re-derive every aggregate field from
the jobs' current states. A job enters the errors map only when it is FAILED
and its error string is truthy (neither `None` nor empty). -/
def BatchJobResultDTO.update_from_jobs {P V : Type} (b : BatchJobResultDTO V)
    (jobs : List (JobDTO P V)) : BatchJobResultDTO V :=
  { b with
    completed := (jobs.filter (fun j => j.status = JobStatus.completed)).length,
    failed := (jobs.filter (fun j => j.status = JobStatus.failed)).length,
    pending := (jobs.filter (fun j => j.status = JobStatus.pending)).length,
    running := (jobs.filter (fun j => j.status = JobStatus.running)).length,
    cancelled := (jobs.filter (fun j => j.status = JobStatus.cancelled)).length,
    results := (jobs.filter (fun j => j.status = JobStatus.completed)).map
      (fun j => (j.job_id, j.result)),
    errors := jobs.filterMap (fun j =>
      match j.error with
      | some s => if j.status = JobStatus.failed ∧ s ≠ "" then some (j.job_id, s) else none
      | none => none) }

/-! ## Priority queue (`queue/memory_queue.py`) -/

/-- The ordering key pushed with each entry:
`(-priority.value, created_at.timestamp(), job_id)`. -/
abbrev QKey : Type := Int × Nat × String

/-- The key of a job. -/
def jobKey {P V : Type} (j : JobDTO P V) : QKey :=
  (-(j.priority.value : Int), j.created_at, j.job_id)

/-- Lexicographic `tuple <=` of Python on the ordering keys. -/
def keyLE (a b : QKey) : Prop :=
  a.1 < b.1 ∨ a.1 = b.1 ∧ (a.2.1 < b.2.1 ∨ a.2.1 = b.2.1 ∧ a.2.2 ≤ b.2.2)

instance keyLE.dec : DecidableRel keyLE := fun a b => by
  unfold keyLE
  infer_instance

/-- The relation by which the heap orders its `(key, job_id)` entries. -/
def entLE (a b : QKey × String) : Prop := keyLE a.1 b.1

instance entLE.dec : DecidableRel entLE := fun a b => keyLE.dec a.1 b.1

/-- `MemoryQueue` state: the priority-queue contents (kept sorted by key, the
pop-min view of the binary heap) and the authoritative job registry dict. -/
structure MemoryQueue (P V : Type) where
  queue : List (QKey × String)
  jobs : List (String × JobDTO P V)

/-- A fresh `MemoryQueue()`. -/
def MemoryQueue.empty (P V : Type) : MemoryQueue P V :=
  { queue := [], jobs := [] }

/-- `MemoryQueue.enqueue`: store the job in the registry and push
`((-priority, created_at, job_id), job_id)` onto the priority queue;
returns the job id. -/
def MemoryQueue.enqueue {P V : Type} (q : MemoryQueue P V) (j : JobDTO P V) :
    String × MemoryQueue P V :=
  (j.job_id,
   { queue := q.queue.orderedInsert entLE (jobKey j, j.job_id),
     jobs := alSet q.jobs j.job_id j })

/-- Outcome of `MemoryQueue.dequeue`: a job, `None` on an empty queue, or an
uncaught `KeyError` when the popped id is no longer in the registry (only
`queue.Empty` is caught in the source). -/
inductive DequeueResult (P V : Type) where
  | job (j : JobDTO P V)
  | empty
  | keyError (id : String)
deriving DecidableEq

/-- `MemoryQueue.dequeue`: pop the least entry; look the id up in the registry
(raising `KeyError` if it was removed); set the job RUNNING via
`update_status` and write it back. No status or registry-membership guard is
applied before the lookup. -/
def MemoryQueue.dequeue {P V : Type} (q : MemoryQueue P V) (now : Nat) :
    DequeueResult P V × MemoryQueue P V :=
  match q.queue with
  | [] => (.empty, q)
  | e :: rest =>
    match alLookup q.jobs e.2 with
    | none => (.keyError e.2, { q with queue := rest })
    | some j =>
      let j1 := j.update_status .running now
      (.job j1, { queue := rest, jobs := alSet q.jobs e.2 j1 })

/-- `MemoryQueue.get_job`. -/
def MemoryQueue.get_job {P V : Type} (q : MemoryQueue P V) (id : String) :
    Option (JobDTO P V) :=
  alLookup q.jobs id

/-- `MemoryQueue.update_job`: replace the registry entry if present. -/
def MemoryQueue.update_job {P V : Type} (q : MemoryQueue P V) (j : JobDTO P V) :
    Bool × MemoryQueue P V :=
  match alLookup q.jobs j.job_id with
  | none => (false, q)
  | some _ => (true, { q with jobs := alSet q.jobs j.job_id j })

/-- `MemoryQueue.remove_job`: delete the registry entry if present; the stale
priority-queue entry is left in place. -/
def MemoryQueue.remove_job {P V : Type} (q : MemoryQueue P V) (id : String) :
    Bool × MemoryQueue P V :=
  match alLookup q.jobs id with
  | none => (false, q)
  | some _ => (true, { q with jobs := alErase q.jobs id })

/-- `LiteratureExtractionQueueManager.cancel_job`: only a PENDING job is
cancelled (via `update_status(CANCELLED)` and `update_job`); a missing,
RUNNING or terminal job yields `False` with no state change. -/
def cancel_job {P V : Type} (q : MemoryQueue P V) (id : String) (now : Nat) :
    Bool × MemoryQueue P V :=
  match alLookup q.jobs id with
  | none => (false, q)
  | some j =>
    if j.status ≠ JobStatus.pending then (false, q)
    else
      let j1 := j.update_status .cancelled now
      (true, (q.update_job j1).2)

/-- `MemoryWorker.process_job`: run the processor on the job; a processor
either returns the (possibly mutated) job or raises, yielding the exception
message and the job as mutated so far. On normal return a still-RUNNING job
is promoted to COMPLETED; on an exception the worker sets
`error := str(e)` and status FAILED. Either way the final job is written
back through `update_job`. -/
def process_job {P V : Type} (q : MemoryQueue P V) (j : JobDTO P V)
    (processor : JobDTO P V → Except (String × JobDTO P V) (JobDTO P V))
    (now : Nat) : MemoryQueue P V :=
  match processor j with
  | .ok j1 =>
    let j2 := if j1.status = JobStatus.running then j1.update_status .completed now else j1
    (q.update_job j2).2
  | .error (msg, j1) =>
    let j2 := ({ j1 with error := some msg } : JobDTO P V).update_status .failed now
    (q.update_job j2).2

/-- Repeated dequeues (bounded by `fuel`), collecting the returned jobs' ids;
stops on an empty queue, skips nothing on a `KeyError` result beyond the
single popped entry. -/
def drainGo {P V : Type} : MemoryQueue P V → Nat → Nat → List String
  | _, 0, _ => []
  | q, fuel + 1, now =>
    match q.dequeue now with
    | (.job j, q') => j.job_id :: drainGo q' fuel now
    | (.keyError _, q') => drainGo q' fuel now
    | (.empty, _) => []

/-- All ids handed out by draining the queue to exhaustion. -/
def drainIds {P V : Type} (q : MemoryQueue P V) (now : Nat) : List String :=
  drainGo q q.queue.length now

/-- Enqueue a list of jobs in order into a fresh queue. -/
def enqueueAll {P V : Type} (jobs : List (JobDTO P V)) : MemoryQueue P V :=
  jobs.foldl (fun q j => (q.enqueue j).2) (MemoryQueue.empty P V)

/-! ## Error classification and retry executor (`utils/error_handling.py`) -/

/-- An exception, as far as the classifier can observe it: a
`RetryableError` subclass (carrying its class name and message), an
`APIError` (message and optional HTTP status), or any other exception class
(class name and message). -/
inductive Exc where
  | retryable (name msg : String)
  | api (msg : String) (status : Option Int)
  | other (name msg : String)
deriving DecidableEq

/-- `str(e)`: the exception's message. -/
def Exc.message : Exc → String
  | .retryable _ m => m
  | .api m _ => m
  | .other _ m => m

/-- The built-in list of transient exception class names. -/
def transientNames : List String :=
  ["ConnectionError", "Timeout", "ConnectTimeout", "ReadTimeout",
   "RequestException", "HTTPError", "ConnectionRefusedError",
   "ConnectionResetError", "ConnectionAbortedError"]

/-- `ErrorHandler.is_retryable_error`: `RetryableError` instances, the
built-in transient class names, and `APIError` with status 429. -/
def is_retryable_error : Exc → Bool
  | .retryable _ _ => true
  | .api _ status => status = some 429
  | .other name _ => transientNames.contains name

/-- `RetryStrategy` enum. -/
inductive RetryStrategy where
  | fixed
  | exponential
  | exponentialJitter
deriving DecidableEq

/-- `ErrorHandler.get_retry_delay`. The uniform random addend of
EXPONENTIAL_JITTER is an explicit `jitter` argument (the drawn sample). -/
def get_retry_delay (attempt : Nat) (strategy : RetryStrategy)
    (base_delay max_delay jitter : Nat) : Nat :=
  match strategy with
  | .fixed => base_delay
  | .exponential => min (base_delay * 2 ^ attempt) max_delay
  | .exponentialJitter => min (base_delay * 2 ^ attempt) max_delay + jitter

/-- The retry decision of the wrapper's except-branch: the explicit
`retryable_exceptions` list when non-empty (Python truthiness), else the
built-in classifier. -/
def shouldRetryExc (retryable_exceptions : List (Exc → Bool)) (e : Exc) : Bool :=
  (!retryable_exceptions.isEmpty && retryable_exceptions.any (fun p => p e))
    || is_retryable_error e

/-- Outcome of a retry-wrapped call: the returned value or the re-raised
exception, together with the number of invocations of the wrapped function
and the list of delays slept between attempts. -/
inductive RetryResult (R : Type) where
  | ok (r : R) (calls : Nat) (slept : List Nat)
  | err (e : Exc) (calls : Nat) (slept : List Nat)
deriving DecidableEq

/-- The body of the `retry` decorator's `while True` loop, entered with the
current `attempt` count. The wrapped function is modelled by the outcome of
its `i`-th invocation, `f i`; `jitter i` is the random sample drawn before
the sleep that follows the `i`-th failure. On an exception the attempt
counter is bumped; at `max_attempts` the exception is re-raised, otherwise a
non-retryable exception is re-raised and a retryable one is retried after a
sleep of `get_retry_delay (attempt - 1) ...`. -/
def retryGo {R : Type} (max_attempts : Nat) (strategy : RetryStrategy)
    (base_delay max_delay : Nat) (retryable_exceptions : List (Exc → Bool))
    (jitter : Nat → Nat) (f : Nat → Except Exc R) (attempt : Nat) :
    RetryResult R :=
  match f attempt with
  | .ok r => .ok r (attempt + 1) []
  | .error e =>
    let a1 := attempt + 1
    if _h : max_attempts ≤ a1 then .err e a1 []
    else if shouldRetryExc retryable_exceptions e then
      let d := get_retry_delay (a1 - 1) strategy base_delay max_delay (jitter (a1 - 1))
      match retryGo max_attempts strategy base_delay max_delay
          retryable_exceptions jitter f a1 with
      | .ok r c s => .ok r c (d :: s)
      | .err e' c s => .err e' c (d :: s)
    else .err e a1 []
termination_by max_attempts - attempt
decreasing_by omega

/-- A full run of a `retry`-wrapped function (the loop starts at attempt 0). -/
def retryRun {R : Type} (max_attempts : Nat) (strategy : RetryStrategy)
    (base_delay max_delay : Nat) (retryable_exceptions : List (Exc → Bool))
    (jitter : Nat → Nat) (f : Nat → Except Exc R) : RetryResult R :=
  retryGo max_attempts strategy base_delay max_delay retryable_exceptions jitter f 0

/-! ## Rate limiter (`utils/error_handling.py`) -/

/-- `RateLimiter` state: configuration plus the recorded call timestamps. -/
structure RateLimiter where
  calls : Nat
  period : Nat
  raise_on_limit : Bool
  call_times : List Nat
deriving DecidableEq

/-- The prune step: keep timestamps with `current_time - t <= period`. -/
def RateLimiter.pruned (rl : RateLimiter) (now : Nat) : List Nat :=
  rl.call_times.filter (fun t => now - t ≤ rl.period)

/-- Outcome of the admission gate inside the rate-limiting wrapper. -/
inductive RLOutcome where
  | admitted (recordedAt : Nat)
  | limitError
deriving DecidableEq

/-- The admission gate of `RateLimiter.__call__`: prune, then either raise
`RateLimitError` (raise mode, at capacity), or sleep until the window frees
(block mode; `afterWait` is the clock reading after the sleep) and record,
or record immediately when under capacity. -/
def RateLimiter.admit (rl : RateLimiter) (now afterWait : Nat) :
    RLOutcome × RateLimiter :=
  let pruned := rl.pruned now
  if rl.calls ≤ pruned.length then
    if rl.raise_on_limit then
      (.limitError, { rl with call_times := pruned })
    else
      (.admitted afterWait, { rl with call_times := pruned ++ [afterWait] })
  else
    (.admitted now, { rl with call_times := pruned ++ [now] })

/-- One call of a function wrapped by the limiter: the wrapped function runs
(after the gate releases the lock) exactly when the gate admits the call.
The middle component records whether the function was invoked. -/
def rateLimitedCall {R : Type} (rl : RateLimiter) (now afterWait : Nat)
    (f : Unit → R) : Option R × Bool × RateLimiter :=
  match rl.admit now afterWait with
  | (.limitError, rl') => (none, false, rl')
  | (.admitted _, rl') => (some (f ()), true, rl')

/-! ## Concrete sample data used by closed evaluations -/

/-- A freshly constructed pending job (payload and result types are `Nat`). -/
def sampleJob : JobDTO Nat Nat :=
  { payload := 0, priority := .normal, status := .pending, job_id := "job-1",
    created_at := 0, updated_at := 0, started_at := none, completed_at := none,
    result := none, error := none, retries := 0, max_retries := 3, tags := [] }

/-- Scenario job J1: LOW priority, submitted first. -/
def scenarioJ1 : JobDTO Nat Nat :=
  { sampleJob with job_id := "J1", priority := .low, created_at := 1 }

/-- Scenario job J2: CRITICAL priority, submitted second. -/
def scenarioJ2 : JobDTO Nat Nat :=
  { sampleJob with job_id := "J2", priority := .critical, created_at := 2 }

/-- Scenario job J3: NORMAL priority, submitted third. -/
def scenarioJ3 : JobDTO Nat Nat :=
  { sampleJob with job_id := "J3", priority := .normal, created_at := 3 }

/-- A failed job carrying a terminal timestamp and an error, for witnesses. -/
def sampleFailedJob : JobDTO Nat Nat :=
  { sampleJob with status := JobStatus.failed, completed_at := some 5,
                   error := some "boom" }

/-- Registry coverage: every id sitting in the ordering structure is bound in
the registry to a job carrying that id. Holds for every state reached by
`enqueue`/`dequeue` alone. -/
def RegOK {P V : Type} (q : MemoryQueue P V) : Prop :=
  ∀ e ∈ q.queue, ∃ j, alLookup q.jobs e.2 = some j ∧ j.job_id = e.2

/-- Key-distinctness of an association list, the invariant of a Python dict. -/
def KeysNodup {α : Type} (l : List (String × α)) : Prop :=
  (l.map Prod.fst).Nodup

/-- The status carried by a `DequeueResult.job`, if any. -/
def dequeuedStatus {P V : Type} (r : DequeueResult P V) : Option JobStatus :=
  match r with
  | .job j => some j.status
  | _ => none

/-- The job id carried by a `DequeueResult.job`, if any. -/
def dequeuedId {P V : Type} (r : DequeueResult P V) : Option String :=
  match r with
  | .job j => some j.job_id
  | _ => none

/-! ## Association-list lemmas -/

theorem alLookup_alSet_self {α : Type} (l : List (String × α)) (k : String) (v : α) :
    alLookup (alSet l k v) k = some v := by
  induction l with
  | nil => simp [alSet, alLookup]
  | cons h t ih =>
    obtain ⟨k', v'⟩ := h
    by_cases hk : k' = k
    · simp [alSet, hk, alLookup]
    · simp [alSet, hk, alLookup, ih]

theorem alLookup_alSet_ne {α : Type} (l : List (String × α)) (k k' : String) (v : α)
    (h : k ≠ k') : alLookup (alSet l k v) k' = alLookup l k' := by
  induction l with
  | nil => simp [alSet, alLookup, h]
  | cons p t ih =>
    obtain ⟨k1, v1⟩ := p
    by_cases hk : k1 = k
    · subst hk
      simp [alSet, alLookup, h]
    · simp [alSet, hk, alLookup, ih]

theorem alLookup_eq_none_iff {α : Type} (l : List (String × α)) (k : String) :
    alLookup l k = none ↔ k ∉ l.map Prod.fst := by
  induction l with
  | nil => simp [alLookup]
  | cons p t ih =>
    obtain ⟨k1, v1⟩ := p
    by_cases hk : k1 = k
    · subst hk
      simp [alLookup]
    · simp [alLookup, hk, ih, Ne.symm hk]

theorem alLookup_filter_none {α : Type} (l : List (String × α))
    (p : String × α → Bool) (k : String) (h : alLookup l k = none) :
    alLookup (l.filter p) k = none := by
  induction l with
  | nil => simp [alLookup]
  | cons q t ih =>
    obtain ⟨k1, v1⟩ := q
    by_cases hk : k1 = k
    · subst hk
      simp [alLookup] at h
    · simp only [alLookup, if_neg hk] at h
      rw [List.filter_cons]
      by_cases hp : p (k1, v1) = true
      · simp only [if_pos hp, alLookup, if_neg hk]
        exact ih h
      · simp only [if_neg hp]
        exact ih h

theorem alLookup_filter_some {α : Type} {l : List (String × α)}
    {p : String × α → Bool} {k : String} {v : α} (hnd : KeysNodup l)
    (h : alLookup l k = some v) :
    alLookup (l.filter p) k = if p (k, v) = true then some v else none := by
  induction l with
  | nil => simp [alLookup] at h
  | cons q t ih =>
    obtain ⟨k1, v1⟩ := q
    unfold KeysNodup at hnd
    simp only [List.map_cons, List.nodup_cons] at hnd
    by_cases hk : k1 = k
    · subst hk
      have hv : v1 = v := by simpa [alLookup] using h
      subst hv
      have ht : alLookup t k1 = none := (alLookup_eq_none_iff t k1).mpr hnd.1
      rw [List.filter_cons]
      by_cases hp : p (k1, v1) = true
      · simp [hp, alLookup]
      · simp only [if_neg hp]
        exact alLookup_filter_none t p k1 ht
    · simp only [alLookup, if_neg hk] at h
      have hrec := ih hnd.2 h
      rw [List.filter_cons]
      by_cases hp : p (k1, v1) = true
      · simpa [alLookup, hk, hp] using hrec
      · simpa [hp] using hrec

theorem keys_alSet_subset {α : Type} {l : List (String × α)} {k x : String} {v : α}
    (h : x ∈ (alSet l k v).map Prod.fst) : x = k ∨ x ∈ l.map Prod.fst := by
  induction l with
  | nil =>
    left
    simpa [alSet] using h
  | cons q t ih =>
    obtain ⟨k1, v1⟩ := q
    by_cases hk : k1 = k
    · subst hk
      simp only [alSet, ite_true] at h
      simp only [List.map_cons, List.mem_cons] at h
      rcases h with h | h
      · exact Or.inl h
      · right
        simp only [List.map_cons, List.mem_cons]
        exact Or.inr h
    · simp only [alSet] at h
      rw [if_neg hk] at h
      simp only [List.map_cons, List.mem_cons] at h
      rcases h with h | h
      · right
        simp only [List.map_cons, List.mem_cons]
        exact Or.inl h
      · rcases ih h with h1 | h1
        · exact Or.inl h1
        · right
          simp only [List.map_cons, List.mem_cons]
          exact Or.inr h1

theorem keys_alErase_subset {α : Type} {l : List (String × α)} {k x : String}
    (h : x ∈ (alErase l k).map Prod.fst) : x ∈ l.map Prod.fst := by
  induction l with
  | nil => simp [alErase] at h
  | cons q t ih =>
    obtain ⟨k1, v1⟩ := q
    by_cases hk : k1 = k
    · subst hk
      simp only [alErase, if_pos rfl] at h
      simp only [List.map_cons, List.mem_cons]
      exact Or.inr h
    · simp only [alErase, if_neg hk, List.map_cons, List.mem_cons] at h
      simp only [List.map_cons, List.mem_cons]
      rcases h with h | h
      · exact Or.inl h
      · exact Or.inr (ih h)

theorem keysNodup_alSet {α : Type} {l : List (String × α)} {k : String} {v : α}
    (h : KeysNodup l) : KeysNodup (alSet l k v) := by
  induction l with
  | nil => simp [KeysNodup, alSet]
  | cons q t ih =>
    obtain ⟨k1, v1⟩ := q
    unfold KeysNodup at h ⊢
    simp only [List.map_cons, List.nodup_cons] at h
    by_cases hk : k1 = k
    · subst hk
      simp only [alSet, ite_true, List.map_cons, List.nodup_cons]
      exact h
    · simp only [alSet]
      rw [if_neg hk]
      simp only [List.map_cons, List.nodup_cons]
      refine ⟨fun hm => ?_, ih h.2⟩
      rcases keys_alSet_subset hm with h1 | h1
      · exact hk h1
      · exact h.1 h1

theorem keysNodup_alErase {α : Type} {l : List (String × α)} {k : String}
    (h : KeysNodup l) : KeysNodup (alErase l k) := by
  induction l with
  | nil => simp [KeysNodup, alErase]
  | cons q t ih =>
    obtain ⟨k1, v1⟩ := q
    unfold KeysNodup at h ⊢
    simp only [List.map_cons, List.nodup_cons] at h
    by_cases hk : k1 = k
    · subst hk
      simp only [alErase, if_pos rfl]
      exact h.2
    · simp only [alErase, if_neg hk, List.map_cons, List.nodup_cons]
      exact ⟨fun hm => h.1 (keys_alErase_subset hm), ih h.2⟩

theorem keysNodup_filter {α : Type} {l : List (String × α)} {p : String × α → Bool}
    (h : KeysNodup l) : KeysNodup (l.filter p) := by
  unfold KeysNodup at h ⊢
  exact List.Nodup.sublist (List.Sublist.map Prod.fst (List.filter_sublist l)) h

/-! ## `JobDTO.update_status` frame lemmas -/

theorem update_status_status {P V : Type} (j : JobDTO P V) (s : JobStatus) (now : Nat) :
    (j.update_status s now).status = s := by
  unfold JobDTO.update_status
  split
  · rfl
  · split <;> rfl

theorem update_status_updated_at {P V : Type} (j : JobDTO P V) (s : JobStatus) (now : Nat) :
    (j.update_status s now).updated_at = now := by
  unfold JobDTO.update_status
  split
  · rfl
  · split <;> rfl

theorem update_status_error {P V : Type} (j : JobDTO P V) (s : JobStatus) (now : Nat) :
    (j.update_status s now).error = j.error := by
  unfold JobDTO.update_status
  split
  · rfl
  · split <;> rfl

theorem update_status_job_id {P V : Type} (j : JobDTO P V) (s : JobStatus) (now : Nat) :
    (j.update_status s now).job_id = j.job_id := by
  unfold JobDTO.update_status
  split
  · rfl
  · split <;> rfl

theorem update_status_completed_at_of_ne_none {P V : Type} (j : JobDTO P V)
    (s : JobStatus) (now : Nat) (h : j.completed_at ≠ none) :
    (j.update_status s now).completed_at = j.completed_at := by
  unfold JobDTO.update_status
  split
  · rfl
  · split
    · rename_i hc
      exact absurd hc.2 h
    · rfl

/-- C9: the retry-recycle operation `increment_retry` changes exactly the
retries counter (+1), the status (PENDING), `updated_at`, and the error
(cleared); every other field — in particular `completed_at` — is untouched,
and a later terminal `update_status` does not overwrite an already-set
`completed_at` because the terminal timestamp is only written when absent. -/
theorem C9_increment_retry_frame {P V : Type} (j : JobDTO P V) (now : Nat)
    (hfailed : j.status = JobStatus.failed) :
    (j.increment_retry now).retries = j.retries + 1
    ∧ (j.increment_retry now).status = JobStatus.pending
    ∧ (j.increment_retry now).updated_at = now
    ∧ (j.increment_retry now).error = none
    ∧ (j.increment_retry now).started_at = j.started_at
    ∧ (j.increment_retry now).completed_at = j.completed_at
    ∧ (j.increment_retry now).result = j.result
    ∧ (j.increment_retry now).payload = j.payload
    ∧ (j.increment_retry now).priority = j.priority
    ∧ (j.increment_retry now).tags = j.tags
    ∧ (j.increment_retry now).job_id = j.job_id
    ∧ (j.increment_retry now).created_at = j.created_at
    ∧ (j.increment_retry now).max_retries = j.max_retries
    ∧ ∀ (s : JobStatus) (t now' : Nat), j.completed_at = some t →
        (s = JobStatus.completed ∨ s = JobStatus.failed ∨ s = JobStatus.cancelled) →
        ((j.increment_retry now).update_status s now').completed_at = some t := by
  refine ⟨rfl, rfl, rfl, rfl, rfl, rfl, rfl, rfl, rfl, rfl, rfl, rfl, rfl, ?_⟩
  intro s t now' hc _hs
  have : (j.increment_retry now).completed_at = some t := hc
  rw [update_status_completed_at_of_ne_none _ s now' (by rw [this]; exact Option.some_ne_none t)]
  exact this

/-- Witness for C9 at a concrete failed job. -/
theorem C9_increment_retry_frame_witness :
    (sampleFailedJob.increment_retry 9).completed_at = some 5
    ∧ (sampleFailedJob.increment_retry 9).error = none := by
  have h := C9_increment_retry_frame sampleFailedJob 9 rfl
  exact ⟨h.2.2.2.2.2.1, h.2.2.2.1⟩

/-- C1: contrary to the claim, a PENDING job cancelled through `cancel_job`
(status set to CANCELLED, `cancel_job` returning true) is still returned by
the next `dequeue`, which promotes it to RUNNING: `dequeue` pops the stale
ordering entry and applies `update_status(RUNNING)` without any status
check. Evaluation of the model at the failing input. -/
theorem C1_cancelled_job_still_dequeued :
    (cancel_job ((MemoryQueue.empty Nat Nat).enqueue sampleJob).2 "job-1" 1).1 = true
    ∧ (((cancel_job ((MemoryQueue.empty Nat Nat).enqueue sampleJob).2 "job-1" 1).2.get_job
        "job-1").map JobDTO.status) = some JobStatus.cancelled
    ∧ dequeuedId (((cancel_job ((MemoryQueue.empty Nat Nat).enqueue sampleJob).2 "job-1"
        1).2.dequeue 2).1) = some "job-1"
    ∧ dequeuedStatus (((cancel_job ((MemoryQueue.empty Nat Nat).enqueue sampleJob).2 "job-1"
        1).2.dequeue 2).1) = some JobStatus.running := by
  decide

/-- C2: contrary to the claim, after `remove_job` deletes a job from the
registry, the stale ordering entry is not skipped: the next `dequeue` hits
an uncaught `KeyError` on the registry lookup instead of returning the next
pending job or `None`. Evaluation of the model at the failing input. -/
theorem C2_removed_job_dequeue_key_error :
    (((MemoryQueue.empty Nat Nat).enqueue sampleJob).2.remove_job "job-1").1 = true
    ∧ ((((MemoryQueue.empty Nat Nat).enqueue sampleJob).2.remove_job "job-1").2.dequeue 1).1
        = DequeueResult.keyError "job-1" := by
  decide

/-- C5 (amended): after `set(k, v, ttl)` at time `t0` with `ttl > 0`, a
`get(k)` at elapsed time `e ≤ ttl` returns `v`, and a `get(k)` at elapsed
time `e > ttl` reports a miss. (The source tests `time.time() > expiry`, so
the entry is still served at exactly `e = ttl`.) -/
theorem C5_cache_ttl_round_trip {V : Type} (c : MemoryCache V) (k : String)
    (v : V) (ttl t0 e : Nat) (httl : 0 < ttl) :
    (e ≤ ttl → ((c.set k (some v) (some ttl) t0).get k (t0 + e)).1 = some v)
    ∧ (ttl < e → ((c.set k (some v) (some ttl) t0).get k (t0 + e)).1 = none) := by
  have heff : ttlOrDefault (some ttl) c.default_ttl = ttl := by
    simp [ttlOrDefault, Nat.pos_iff_ne_zero.mp httl]
  have hl : alLookup ((c.set k (some v) (some ttl) t0)).cache k
      = some (CacheItem.make (some v) t0 ttl) := by
    unfold MemoryCache.set
    rw [heff]
    exact alLookup_alSet_self c.cache k _
  constructor
  · intro he
    have hexp : ({ value := some v, expiry := t0 + ttl } : CacheItem V).is_expired (t0 + e)
        = false := by
      unfold CacheItem.is_expired
      simp only [decide_eq_false_iff_not, not_lt]
      omega
    unfold MemoryCache.get
    rw [hl]
    simp [CacheItem.make, hexp]
  · intro he
    have hexp : ({ value := some v, expiry := t0 + ttl } : CacheItem V).is_expired (t0 + e)
        = true := by
      unfold CacheItem.is_expired
      simp only [decide_eq_true_eq]
      omega
    unfold MemoryCache.get
    rw [hl]
    simp [CacheItem.make, hexp]

/-- Witness for C5 at concrete inputs: a hit at elapsed 3 of a 5-second TTL
and a miss at elapsed 7. -/
theorem C5_cache_ttl_round_trip_witness :
    ((MemoryCache.set ⟨[], 3600⟩ "k" (some (42 : Nat)) (some 5) 0).get "k" (0 + 3)).1
      = some 42
    ∧ ((MemoryCache.set ⟨[], 3600⟩ "k" (some (42 : Nat)) (some 5) 0).get "k" (0 + 7)).1
      = none := by
  constructor
  · exact (C5_cache_ttl_round_trip ⟨[], 3600⟩ "k" 42 5 0 3 (by decide)).1 (by decide)
  · exact (C5_cache_ttl_round_trip ⟨[], 3600⟩ "k" 42 5 0 7 (by decide)).2 (by decide)

/-- C5 counterexample: at elapsed time exactly equal to the TTL (`e = ttl =
5`, so `e ≥ ttl`), `get` still returns the value instead of the miss the
claim requires, because expiry is tested with a strict comparison. -/
theorem C5_counterexample_boundary :
    ((MemoryCache.set ⟨[], 3600⟩ "k" (some (42 : Nat)) (some 5) 0).get "k" 5).1 = some 42
    ∧ 5 ≥ 5 := by
  decide

/-- C8: with `raise_on_limit = true`, when after pruning the window still
holds at least `calls` timestamps, the wrapped call raises immediately: the
function is not invoked and no new timestamp is recorded (the state is
exactly the pruned list); when fewer remain, the call is admitted, the
function runs, and the call instant is appended. -/
theorem C8_rate_limiter_raise_mode {R : Type} (rl : RateLimiter)
    (now afterWait : Nat) (f : Unit → R) (hraise : rl.raise_on_limit = true) :
    (rl.calls ≤ (rl.pruned now).length →
      rateLimitedCall rl now afterWait f
        = (none, false, { rl with call_times := rl.pruned now }))
    ∧ ((rl.pruned now).length < rl.calls →
      rateLimitedCall rl now afterWait f
        = (some (f ()), true, { rl with call_times := rl.pruned now ++ [now] })) := by
  constructor
  · intro hfull
    unfold rateLimitedCall RateLimiter.admit
    rw [if_pos hfull, if_pos hraise]
  · intro hroom
    unfold rateLimitedCall RateLimiter.admit
    rw [if_neg (by omega)]

/-- Witness for C8: a limiter at capacity (1 call per 10 s, one recent
timestamp) rejects without running the function; one with room admits. -/
theorem C8_rate_limiter_raise_mode_witness :
    (rateLimitedCall ⟨1, 10, true, [5]⟩ 6 6 (fun _ => (0 : Nat))
      = (none, false, ⟨1, 10, true, [5]⟩))
    ∧ (rateLimitedCall ⟨2, 10, true, [5]⟩ 6 6 (fun _ => (0 : Nat))
      = (some 0, true, ⟨2, 10, true, [5, 6]⟩)) := by
  constructor
  · exact (C8_rate_limiter_raise_mode ⟨1, 10, true, [5]⟩ 6 6 (fun _ => (0 : Nat))
      (by decide)).1 (by decide)
  · exact (C8_rate_limiter_raise_mode ⟨2, 10, true, [5]⟩ 6 6 (fun _ => (0 : Nat))
      (by decide)).2 (by decide)

/-- C7 (amended): for any processor exception, the worker records the
exception's message string (`str(e)`) as the job's error — never null but
empty exactly when the message is empty — and publishes FAILED through
`update_job`; the job's id appears in the batch errors map exactly when
that recorded string is non-empty (Python truthiness in
`update_from_jobs`). -/
theorem C7_failed_error_recorded {P V : Type} (q : MemoryQueue P V)
    (j j1 : JobDTO P V) (msg : String)
    (processor : JobDTO P V → Except (String × JobDTO P V) (JobDTO P V))
    (now : Nat) (hp : processor j = .error (msg, j1))
    (hreg : alLookup q.jobs j1.job_id ≠ none) :
    ∃ jf, (process_job q j processor now).get_job j1.job_id = some jf
      ∧ jf.status = JobStatus.failed
      ∧ jf.error = some msg
      ∧ (∀ b : BatchJobResultDTO V,
          (b.update_from_jobs [jf]).errors
            = if msg ≠ "" then [(j1.job_id, msg)] else []) := by
  unfold process_job
  rw [hp]
  dsimp only
  set j2 := (({ j1 with error := some msg } : JobDTO P V)).update_status .failed now with hj2
  have hid : j2.job_id = j1.job_id := update_status_job_id _ _ _
  have hst : j2.status = JobStatus.failed := update_status_status _ _ _
  have herr : j2.error = some msg := by
    rw [hj2, update_status_error]
  refine ⟨j2, ?_, hst, herr, ?_⟩
  · unfold MemoryQueue.update_job MemoryQueue.get_job
    rw [hid]
    cases hlk : alLookup q.jobs j1.job_id with
    | none => exact absurd hlk hreg
    | some j0 =>
      dsimp only
      exact alLookup_alSet_self q.jobs j1.job_id j2
  · intro b
    by_cases hmsg : msg = ""
    · simp [BatchJobResultDTO.update_from_jobs, herr, hst, hid, hmsg]
    · simp [BatchJobResultDTO.update_from_jobs, herr, hst, hid, hmsg]

/-- Witness for C7 (amended) at a concrete processor failure. -/
theorem C7_failed_error_recorded_witness :
    ∃ jf, (process_job ((MemoryQueue.empty Nat Nat).enqueue sampleJob).2
        (sampleJob.update_status .running 1)
        (fun j => .error ("boom", j)) 2).get_job "job-1" = some jf
      ∧ jf.status = JobStatus.failed
      ∧ jf.error = some "boom"
      ∧ (∀ b : BatchJobResultDTO Nat,
          (b.update_from_jobs [jf]).errors
            = if "boom" ≠ "" then [("job-1", "boom")] else []) := by
  exact C7_failed_error_recorded ((MemoryQueue.empty Nat Nat).enqueue sampleJob).2
    (sampleJob.update_status .running 1) (sampleJob.update_status .running 1)
    "boom" (fun j => .error ("boom", j)) 2 rfl (by decide)

/-- C7 counterexample: a processor that raises an exception whose message is
empty (`str(e) = ""`) yields a FAILED job whose error string is empty — not
non-empty as the claim requires — and the job's id is consequently absent
from the batch errors map. -/
theorem C7_counterexample_empty_message :
    dequeuedStatus ((((MemoryQueue.empty Nat Nat).enqueue sampleJob).2.dequeue 1).1)
      = some JobStatus.running
    ∧ ((process_job ((((MemoryQueue.empty Nat Nat).enqueue sampleJob).2.dequeue 1).2)
        (sampleJob.update_status .running 1)
        (fun j => .error ("", j)) 2).get_job "job-1").map JobDTO.status
      = some JobStatus.failed
    ∧ ((process_job ((((MemoryQueue.empty Nat Nat).enqueue sampleJob).2.dequeue 1).2)
        (sampleJob.update_status .running 1)
        (fun j => .error ("", j)) 2).get_job "job-1").map JobDTO.error
      = some (some "")
    ∧ (BatchJobResultDTO.update_from_jobs ⟨["job-1"], 0, 0, 0, 0, 0, [], []⟩
        (((process_job ((((MemoryQueue.empty Nat Nat).enqueue sampleJob).2.dequeue 1).2)
          (sampleJob.update_status .running 1)
          (fun j => .error ("", j)) 2).get_job "job-1").toList)).errors = [] := by
  decide

/-- When every invocation up to `max_attempts` fails with an error the
wrapper classifies as retryable, the loop entered at `attempt` performs the
remaining invocations, sleeps between them, and re-raises the last
exception after the `max_attempts`-th invocation. -/
theorem retryGo_all_retryable_fail {R : Type} (maxA : Nat)
    (strat : RetryStrategy) (base maxd : Nat) (res : List (Exc → Bool))
    (jit : Nat → Nat) (f : Nat → Except Exc R) (es : Nat → Exc)
    (hf : ∀ i, i < maxA → f i = .error (es i))
    (hr : ∀ i, i < maxA → shouldRetryExc res (es i) = true) :
    ∀ k attempt, attempt + k = maxA → 0 < k →
      ∃ slept, retryGo (R := R) maxA strat base maxd res jit f attempt
          = .err (es (maxA - 1)) maxA slept ∧ slept.length = k - 1 := by
  intro k
  induction k with
  | zero => omega
  | succ k ih =>
    intro attempt hsum _hpos
    have hlt : attempt < maxA := by omega
    rw [retryGo, hf attempt hlt]
    dsimp only
    by_cases hstop : maxA ≤ attempt + 1
    · have hk : k = 0 := by omega
      have ha : attempt = maxA - 1 := by omega
      subst hk
      rw [dif_pos hstop]
      have h3 : maxA - 1 + 1 = maxA := by omega
      exact ⟨[], by rw [ha, h3], rfl⟩
    · rw [dif_neg hstop, if_pos (hr attempt hlt)]
      obtain ⟨slept, hrec, hlen⟩ := ih (attempt + 1) (by omega) (by omega)
      rw [hrec]
      exact ⟨_ :: slept, rfl, by simpa using by omega⟩

/-- C4: a function that raises a retryable error on every invocation is
invoked exactly `max_attempts` times, with a sleep between consecutive
attempts (`max_attempts - 1` sleeps), after which the last exception is
re-raised; a function whose first invocation raises a non-retryable error
is invoked exactly once and the error propagates with no sleeps. -/
theorem C4_retry_exhausts_attempts {R : Type} (maxA : Nat)
    (strat : RetryStrategy) (base maxd : Nat) (res : List (Exc → Bool))
    (jit : Nat → Nat) (hma : 1 ≤ maxA)
    (f : Nat → Except Exc R) (es : Nat → Exc)
    (hf : ∀ i, i < maxA → f i = .error (es i))
    (hr : ∀ i, i < maxA → shouldRetryExc res (es i) = true)
    (g : Nat → Except Exc R) (e0 : Exc)
    (hg : g 0 = .error e0) (hnr : shouldRetryExc res e0 = false) :
    (∃ slept, retryRun (R := R) maxA strat base maxd res jit f
        = .err (es (maxA - 1)) maxA slept ∧ slept.length = maxA - 1)
    ∧ retryRun (R := R) maxA strat base maxd res jit g = .err e0 1 [] := by
  constructor
  · unfold retryRun
    simpa using retryGo_all_retryable_fail maxA strat base maxd res jit f es hf hr
      maxA 0 (by omega) (by omega)
  · unfold retryRun
    rw [retryGo, hg]
    dsimp only
    by_cases hstop : maxA ≤ 0 + 1
    · rw [dif_pos hstop]
    · rw [dif_neg hstop, if_neg (by rw [hnr]; exact Bool.false_ne_true)]

/-- Witness for C4: three attempts of an always-retryable failure, then one
attempt of a non-retryable failure. -/
theorem C4_retry_exhausts_attempts_witness :
    (∃ slept, retryRun (R := Nat) 3 .fixed 1 60 [] (fun _ => 0)
        (fun _ => .error (.retryable "NetworkError" "down"))
        = .err (Exc.retryable "NetworkError" "down") 3 slept ∧ slept.length = 2)
    ∧ retryRun (R := Nat) 3 .fixed 1 60 [] (fun _ => 0)
        (fun _ => .error (.other "ValueError" "bad")) = .err (.other "ValueError" "bad") 1 [] := by
  exact C4_retry_exhausts_attempts 3 .fixed 1 60 [] (fun _ => 0) (by omega)
    (fun _ => .error (.retryable "NetworkError" "down"))
    (fun _ => .retryable "NetworkError" "down")
    (fun _ _ => rfl) (fun _ _ => rfl)
    (fun _ => .error (.other "ValueError" "bad")) (.other "ValueError" "bad")
    rfl (by decide)

/-! ## Cache-manager helper lemmas -/

theorem memGet_fst_none_of_value_none {V : Type} (c : MemoryCache V) (k : String)
    (now : Nat) (h : ∀ it, alLookup c.cache k = some it → it.value = none) :
    (c.get k now).1 = none := by
  unfold MemoryCache.get
  cases hl : alLookup c.cache k with
  | none => rfl
  | some it =>
    cases he : it.is_expired now
    · simp [he, h it hl]
    · simp [he]

theorem memGet_fst_none_of_absent_or_expired {V : Type} (c : MemoryCache V)
    (k : String) (now : Nat)
    (h : alLookup c.cache k = none
      ∨ ∃ it, alLookup c.cache k = some it ∧ it.is_expired now = true) :
    (c.get k now).1 = none := by
  unfold MemoryCache.get
  rcases h with h | ⟨it, hl, he⟩
  · rw [h]
  · rw [hl]
    simp [he]

theorem diskGet_fst_none_of_value_none {V : Type} (d : DiskCache V) (k : String)
    (now : Nat) (h : ∀ e, alLookup d.entries k = some e → e.value = none) :
    (d.get k now).1 = none := by
  unfold DiskCache.get
  cases hl : alLookup d.entries k with
  | none => rfl
  | some e =>
    cases he : e.is_stale now
    · simp [he, h e hl]
    · simp [he]

theorem diskGet_fresh_hit {V : Type} (d : DiskCache V) (k : String) (now : Nat)
    (e : DiskEntry V) (v : V) (hl : alLookup d.entries k = some e)
    (hval : e.value = some v) (hfresh : e.is_stale now = false) :
    d.get k now = (some v, d) := by
  unfold DiskCache.get
  rw [hl]
  simp [hfresh, hval]

theorem memGet_fst_after_set_value {V : Type} (c : MemoryCache V) (k : String)
    (v : V) (ttl : Option Nat) (now : Nat) :
    ((c.set k (some v) ttl now).get k now).1 = some v := by
  unfold MemoryCache.set MemoryCache.get
  rw [alLookup_alSet_self]
  have hexp : ({ value := some v, expiry := now + ttlOrDefault ttl c.default_ttl }
      : CacheItem V).is_expired now = false := by
    unfold CacheItem.is_expired
    simp
  simp [CacheItem.make, hexp]

theorem maybe_cleanup_noop {V : Type} (m : CacheManager V) (now : Nat)
    (h : ¬ m.cleanup_interval < now - m.last_cleanup) :
    m.maybe_cleanup now = m := by
  unfold CacheManager.maybe_cleanup
  rw [if_neg h]

theorem managerGet_hit_disk {V : Type} (m : CacheManager V) (k : String) (v : V)
    (now : Nat)
    (hmem : ((m.maybe_cleanup now).memory_cache.get k now).1 = none)
    (hdisk : ((m.maybe_cleanup now).disk_cache.get k now).1 = some v) :
    m.get k true now = (some v,
      { m.maybe_cleanup now with
          memory_cache := (((m.maybe_cleanup now).memory_cache.get k now).2).set k
            (some v) none now,
          disk_cache := ((m.maybe_cleanup now).disk_cache.get k now).2 }) := by
  unfold CacheManager.get
  simp only [hmem, hdisk, ite_true]

theorem managerGet_fst_memory_hit {V : Type} (m : CacheManager V) (k : String)
    (v : V) (ud : Bool) (now : Nat)
    (hm : ((m.maybe_cleanup now).memory_cache.get k now).1 = some v) :
    (m.get k ud now).1 = some v := by
  unfold CacheManager.get
  simp only [hm]

/-- C6: a key absent (or expired) in the memory tier but present, unexpired
and bound to a proper value in the disk tier is served from disk by
`get(k, use_disk=true)`; the value is promoted into the memory tier as a
copy while the disk entry remains; a subsequent `get(k, use_disk=false)` at
the same instant is served from memory. -/
theorem C6_disk_promotion {V : Type} (m : CacheManager V) (k : String) (v : V)
    (e : DiskEntry V) (now : Nat)
    (hmnd : KeysNodup m.memory_cache.cache)
    (hdnd : KeysNodup m.disk_cache.entries)
    (hmem : alLookup m.memory_cache.cache k = none
      ∨ ∃ it, alLookup m.memory_cache.cache k = some it ∧ it.is_expired now = true)
    (hdisk : alLookup m.disk_cache.entries k = some e)
    (hval : e.value = some v)
    (hfresh : e.is_stale now = false) :
    (m.get k true now).1 = some v
    ∧ alLookup (m.get k true now).2.disk_cache.entries k = some e
    ∧ (∃ it, alLookup (m.get k true now).2.memory_cache.cache k = some it
        ∧ it.value = some v)
    ∧ ((m.get k true now).2.get k false now).1 = some v := by
  have hcleanmem : alLookup ((m.memory_cache.cleanup now).2).cache k = none := by
    unfold MemoryCache.cleanup
    dsimp only
    rcases hmem with hmem | ⟨it0, hl0, he0⟩
    · exact alLookup_filter_none _ _ _ hmem
    · rw [alLookup_filter_some hmnd hl0]
      simp [he0]
  have hm1mem : ((m.maybe_cleanup now).memory_cache.get k now).1 = none := by
    by_cases hcl : m.cleanup_interval < now - m.last_cleanup
    · unfold CacheManager.maybe_cleanup
      rw [if_pos hcl]
      apply memGet_fst_none_of_value_none
      intro it hl
      dsimp only at hl
      rw [hcleanmem] at hl
      exact absurd hl (by simp)
    · rw [maybe_cleanup_noop m now hcl]
      exact memGet_fst_none_of_absent_or_expired m.memory_cache k now hmem
  have hm1disk : alLookup (m.maybe_cleanup now).disk_cache.entries k = some e := by
    by_cases hcl : m.cleanup_interval < now - m.last_cleanup
    · unfold CacheManager.maybe_cleanup
      rw [if_pos hcl]
      dsimp only
      unfold DiskCache.cleanup
      dsimp only
      rw [alLookup_filter_some hdnd hdisk]
      simp [hfresh]
    · rw [maybe_cleanup_noop m now hcl]
      exact hdisk
  have hm1nocl : ¬ (m.maybe_cleanup now).cleanup_interval
      < now - (m.maybe_cleanup now).last_cleanup := by
    by_cases hcl : m.cleanup_interval < now - m.last_cleanup
    · unfold CacheManager.maybe_cleanup
      rw [if_pos hcl]
      dsimp only
      simp
    · rw [maybe_cleanup_noop m now hcl]
      exact hcl
  have hdget : (m.maybe_cleanup now).disk_cache.get k now
      = (some v, (m.maybe_cleanup now).disk_cache) :=
    diskGet_fresh_hit _ k now e v hm1disk hval hfresh
  have hres := managerGet_hit_disk m k v now hm1mem (by rw [hdget])
  rw [hres]
  refine ⟨rfl, ?_, ?_, ?_⟩
  · rw [hdget]
    exact hm1disk
  · refine ⟨CacheItem.make (some v) now
      (ttlOrDefault none (((m.maybe_cleanup now).memory_cache.get k now).2).default_ttl),
      ?_, rfl⟩
    unfold MemoryCache.set
    exact alLookup_alSet_self _ k _
  · apply managerGet_fst_memory_hit
    rw [maybe_cleanup_noop _ now (by rw [hdget]; exact hm1nocl)]
    rw [hdget]
    exact memGet_fst_after_set_value _ k v none now

/-- Witness for C6: cold memory tier, warm disk tier. -/
theorem C6_disk_promotion_witness :
    ((⟨⟨[], 3600⟩, ⟨[("k", ⟨"k", some 42, 0, 100⟩)], 86400⟩, 3600, 0⟩ :
        CacheManager Nat).get "k" true 10).1 = some 42
    ∧ (((⟨⟨[], 3600⟩, ⟨[("k", ⟨"k", some 42, 0, 100⟩)], 86400⟩, 3600, 0⟩ :
        CacheManager Nat).get "k" true 10).2.get "k" false 10).1 = some 42 := by
  have h := C6_disk_promotion
    (⟨⟨[], 3600⟩, ⟨[("k", ⟨"k", some 42, 0, 100⟩)], 86400⟩, 3600, 0⟩ : CacheManager Nat)
    "k" 42 ⟨"k", some 42, 0, 100⟩ 10 (by unfold KeysNodup; decide)
    (by unfold KeysNodup; decide) (Or.inl (by decide))
    (by decide) (by decide) (by decide)
  exact ⟨h.1, h.2.2.2⟩

theorem alLookup_filter_pres {α : Type} {l : List (String × α)}
    {p : String × α → Bool} {k : String} (hnd : KeysNodup l) {P : α → Prop}
    (h : ∀ v, alLookup l k = some v → P v) :
    ∀ v, alLookup (l.filter p) k = some v → P v := by
  intro v hv
  cases hl0 : alLookup l k with
  | none =>
    rw [alLookup_filter_none _ _ _ hl0] at hv
    exact absurd hv (by simp)
  | some v0 =>
    rw [alLookup_filter_some hnd hl0] at hv
    by_cases hp : p (k, v0) = true
    · rw [if_pos hp] at hv
      have hvv := Option.some.inj hv
      subst hvv
      exact h v0 hl0
    · rw [if_neg hp] at hv
      exact absurd hv (by simp)

theorem memGet_snd_keysNodup {V : Type} (c : MemoryCache V) (k : String)
    (now : Nat) (h : KeysNodup c.cache) : KeysNodup ((c.get k now).2).cache := by
  unfold MemoryCache.get
  cases hl : alLookup c.cache k with
  | none => exact h
  | some it =>
    cases he : it.is_expired now
    · simpa [he] using h
    · simpa [he] using keysNodup_alErase h

theorem diskGet_snd_keysNodup {V : Type} (d : DiskCache V) (k : String)
    (now : Nat) (h : KeysNodup d.entries) : KeysNodup ((d.get k now).2).entries := by
  unfold DiskCache.get
  cases hl : alLookup d.entries k with
  | none => exact h
  | some e =>
    cases he : e.is_stale now
    · simpa [he] using h
    · simpa [he] using keysNodup_alErase h

theorem managerGet_keysNodup {V : Type} (m : CacheManager V) (k : String)
    (ud : Bool) (now : Nat) (hmn : KeysNodup m.memory_cache.cache)
    (hdn : KeysNodup m.disk_cache.entries) :
    KeysNodup ((m.get k ud now).2).memory_cache.cache
    ∧ KeysNodup ((m.get k ud now).2).disk_cache.entries := by
  have h1m : KeysNodup ((m.maybe_cleanup now).memory_cache).cache := by
    unfold CacheManager.maybe_cleanup
    by_cases hcl : m.cleanup_interval < now - m.last_cleanup
    · rw [if_pos hcl]
      dsimp only
      unfold MemoryCache.cleanup
      exact keysNodup_filter hmn
    · rw [if_neg hcl]
      exact hmn
  have h1d : KeysNodup ((m.maybe_cleanup now).disk_cache).entries := by
    unfold CacheManager.maybe_cleanup
    by_cases hcl : m.cleanup_interval < now - m.last_cleanup
    · rw [if_pos hcl]
      dsimp only
      unfold DiskCache.cleanup
      exact keysNodup_filter hdn
    · rw [if_neg hcl]
      exact hdn
  have h2m : KeysNodup (((m.maybe_cleanup now).memory_cache.get k now).2).cache :=
    memGet_snd_keysNodup _ k now h1m
  have h2d : KeysNodup (((m.maybe_cleanup now).disk_cache.get k now).2).entries :=
    diskGet_snd_keysNodup _ k now h1d
  unfold CacheManager.get
  cases hv : ((m.maybe_cleanup now).memory_cache.get k now).1 with
  | some v =>
    constructor
    · simpa [hv] using h2m
    · simpa [hv] using h1d
  | none =>
    cases ud with
    | false =>
      constructor
      · simpa [hv] using h2m
      · simpa [hv] using h1d
    | true =>
      cases hd : ((m.maybe_cleanup now).disk_cache.get k now).1 with
      | none =>
        constructor
        · simpa [hv, hd] using h2m
        · simpa [hv, hd] using h2d
      | some w =>
        constructor
        · simp only [hv, hd]
          try dsimp only
          unfold MemoryCache.set
          exact keysNodup_alSet h2m
        · simpa [hv, hd] using h2d

theorem managerGet_fst_none {V : Type} (m : CacheManager V) (k : String)
    (ud : Bool) (now : Nat)
    (hm : ((m.maybe_cleanup now).memory_cache.get k now).1 = none)
    (hd : ud = true → ((m.maybe_cleanup now).disk_cache.get k now).1 = none) :
    (m.get k ud now).1 = none := by
  unfold CacheManager.get
  cases ud with
  | false => simp [hm]
  | true => simp [hm, hd rfl]

theorem managerGet_none_after_set_none {V : Type} (m0 : CacheManager V)
    (k : String) (ttl1 ttl2 : Option Nat) (ud : Bool) (now now' : Nat)
    (hmn : KeysNodup m0.memory_cache.cache)
    (hdn : KeysNodup m0.disk_cache.entries) :
    ((CacheManager.set m0 k none ttl1 ttl2 ud now).get k ud now').1 = none := by
  set m1 := CacheManager.set m0 k none ttl1 ttl2 ud now with hm1
  have hm1co : m1.memory_cache.cache = alSet m0.memory_cache.cache k
      (CacheItem.make none now (ttlOrDefault ttl1 m0.memory_cache.default_ttl)) := by
    rw [hm1]
    unfold CacheManager.set MemoryCache.set
    cases ud <;> rfl
  have hm1nd : KeysNodup m1.memory_cache.cache := by
    rw [hm1co]
    exact keysNodup_alSet hmn
  have hvalm : ∀ it, alLookup m1.memory_cache.cache k = some it → it.value = none := by
    intro it hit
    rw [hm1co, alLookup_alSet_self] at hit
    have := Option.some.inj hit
    subst this
    rfl
  apply managerGet_fst_none
  · by_cases hcl : m1.cleanup_interval < now' - m1.last_cleanup
    · unfold CacheManager.maybe_cleanup
      rw [if_pos hcl]
      apply memGet_fst_none_of_value_none
      intro it hl
      unfold MemoryCache.cleanup at hl
      try dsimp only at hl
      exact alLookup_filter_pres hm1nd hvalm it hl
    · rw [maybe_cleanup_noop m1 now' hcl]
      exact memGet_fst_none_of_value_none _ k now' hvalm
  · intro hud
    subst hud
    have hd1co : m1.disk_cache.entries = alSet m0.disk_cache.entries k
        ({ key := k, value := none, created := now,
           expiry := now + ttlOrDefault ttl2 m0.disk_cache.default_ttl }) := by
      rw [hm1]
      unfold CacheManager.set DiskCache.set MemoryCache.set
      rfl
    have hd1nd : KeysNodup m1.disk_cache.entries := by
      rw [hd1co]
      exact keysNodup_alSet hdn
    have hvald : ∀ e, alLookup m1.disk_cache.entries k = some e → e.value = none := by
      intro e he
      rw [hd1co, alLookup_alSet_self] at he
      have := Option.some.inj he
      subst this
      rfl
    by_cases hcl : m1.cleanup_interval < now' - m1.last_cleanup
    · unfold CacheManager.maybe_cleanup
      rw [if_pos hcl]
      apply diskGet_fst_none_of_value_none
      intro e hl
      unfold DiskCache.cleanup at hl
      try dsimp only at hl
      exact alLookup_filter_pres hd1nd hvald e hl
    · rw [maybe_cleanup_noop m1 now' hcl]
      exact diskGet_fst_none_of_value_none _ k now' hvald

/-- C10: a stored `None` is indistinguishable from a miss at the public get
interface — after `set(k, None)` a `get(k)` returns `none` exactly like an
absent key — and consequently a `cached`-wrapped function whose result is
`None` is never short-circuited: the wrapped function is re-invoked on the
next call as well. -/
theorem C10_stored_none_is_miss {V : Type} :
    (∀ (c : MemoryCache V) (k : String) (ttl : Option Nat) (now now' : Nat),
      ((c.set k none ttl now).get k now').1 = none)
    ∧ (∀ (c : MemoryCache V) (k : String) (now : Nat),
      alLookup c.cache k = none → (c.get k now).1 = none)
    ∧ (∀ (m : CacheManager V) (key : String) (f : Unit → Option V) (ttl : Nat)
        (ud : Bool) (now : Nat),
      KeysNodup m.memory_cache.cache → KeysNodup m.disk_cache.entries →
      (m.get key ud now).1 = none → f () = none →
      (cachedCall m key f ttl ud now).1 = none
      ∧ (cachedCall m key f ttl ud now).2.1 = true
      ∧ ∀ (g : Unit → Option V) (now' : Nat),
          (cachedCall (cachedCall m key f ttl ud now).2.2 key g ttl ud now').2.1
            = true) := by
  refine ⟨?_, ?_, ?_⟩
  · intro c k ttl now now'
    apply memGet_fst_none_of_value_none
    intro it hit
    unfold MemoryCache.set at hit
    rw [alLookup_alSet_self] at hit
    have := Option.some.inj hit
    subst this
    rfl
  · intro c k now h
    exact memGet_fst_none_of_absent_or_expired c k now (Or.inl h)
  · intro m key f ttl ud now hmn hdn hget hf
    have hcc : cachedCall m key f ttl ud now
        = (none, true, (m.get key ud now).2.set key none (some ttl) (some ttl) ud now) := by
      unfold cachedCall
      simp only [hget, hf]
    refine ⟨by rw [hcc], by rw [hcc], ?_⟩
    intro g now'
    have hnodups := managerGet_keysNodup m key ud now hmn hdn
    have hnone : (((m.get key ud now).2.set key none (some ttl) (some ttl) ud
        now).get key ud now').1 = none :=
      managerGet_none_after_set_none _ key (some ttl) (some ttl) ud now now'
        hnodups.1 hnodups.2
    rw [hcc]
    unfold cachedCall
    simp [hnone]

/-- Witness for C10: an empty two-tier cache, a memoized function returning
`None`; the second wrapped call invokes its function again. -/
theorem C10_stored_none_is_miss_witness :
    (cachedCall (⟨⟨[], 3600⟩, ⟨[], 86400⟩, 3600, 0⟩ : CacheManager Nat) "k"
      (fun _ => none) 60 true 0).1 = none
    ∧ (cachedCall (⟨⟨[], 3600⟩, ⟨[], 86400⟩, 3600, 0⟩ : CacheManager Nat) "k"
      (fun _ => none) 60 true 0).2.1 = true
    ∧ (cachedCall (cachedCall (⟨⟨[], 3600⟩, ⟨[], 86400⟩, 3600, 0⟩ : CacheManager Nat)
        "k" (fun _ => none) 60 true 0).2.2 "k" (fun _ => some 7) 60 true 5).2.1
      = true := by
  have h := (C10_stored_none_is_miss (V := Nat)).2.2
    (⟨⟨[], 3600⟩, ⟨[], 86400⟩, 3600, 0⟩ : CacheManager Nat) "k" (fun _ => none)
    60 true 0 (by unfold KeysNodup; decide) (by unfold KeysNodup; decide)
    (by decide) rfl
  exact ⟨h.1, h.2.1, h.2.2 (fun _ => some 7) 5⟩

/-! ## Ordering-key lemmas and queue-ordering theorems -/

theorem keyLE_total (a b : QKey) : keyLE a b ∨ keyLE b a := by
  obtain ⟨a1, a2, a3⟩ := a
  obtain ⟨b1, b2, b3⟩ := b
  unfold keyLE
  dsimp only
  rcases lt_trichotomy a1 b1 with h | h | h
  · exact Or.inl (Or.inl h)
  · subst h
    rcases lt_trichotomy a2 b2 with h2 | h2 | h2
    · exact Or.inl (Or.inr ⟨rfl, Or.inl h2⟩)
    · subst h2
      rcases le_total a3 b3 with h3 | h3
      · exact Or.inl (Or.inr ⟨rfl, Or.inr ⟨rfl, h3⟩⟩)
      · exact Or.inr (Or.inr ⟨rfl, Or.inr ⟨rfl, h3⟩⟩)
    · exact Or.inr (Or.inr ⟨rfl, Or.inl h2⟩)
  · exact Or.inr (Or.inl h)

theorem keyLE_trans {a b c : QKey} (hab : keyLE a b) (hbc : keyLE b c) :
    keyLE a c := by
  obtain ⟨a1, a2, a3⟩ := a
  obtain ⟨b1, b2, b3⟩ := b
  obtain ⟨c1, c2, c3⟩ := c
  unfold keyLE at hab hbc ⊢
  dsimp only at hab hbc ⊢
  rcases hab with h1 | ⟨e1, h2 | ⟨e2, h3⟩⟩ <;>
    rcases hbc with g1 | ⟨f1, g2 | ⟨f2, g3⟩⟩
  · exact Or.inl (by omega)
  · exact Or.inl (by omega)
  · exact Or.inl (by omega)
  · exact Or.inl (by omega)
  · exact Or.inr ⟨by omega, Or.inl (by omega)⟩
  · exact Or.inr ⟨by omega, Or.inl (by omega)⟩
  · exact Or.inl (by omega)
  · exact Or.inr ⟨by omega, Or.inl (by omega)⟩
  · exact Or.inr ⟨by omega, Or.inr ⟨by omega, le_trans h3 g3⟩⟩

theorem keyLE_antisymm {a b : QKey} (hab : keyLE a b) (hba : keyLE b a) :
    a = b := by
  obtain ⟨a1, a2, a3⟩ := a
  obtain ⟨b1, b2, b3⟩ := b
  have hab' : a1 < b1 ∨ a1 = b1 ∧ (a2 < b2 ∨ a2 = b2 ∧ a3 ≤ b3) := hab
  have hba' : b1 < a1 ∨ b1 = a1 ∧ (b2 < a2 ∨ b2 = a2 ∧ b3 ≤ a3) := hba
  rcases hab' with h1 | ⟨e1, h2 | ⟨e2, h3⟩⟩ <;>
    rcases hba' with g1 | ⟨f1, g2 | ⟨f2, g3⟩⟩
  · exact absurd g1 (by omega)
  · exact absurd f1 (by omega)
  · exact absurd f1 (by omega)
  · exact absurd g1 (by omega)
  · exact absurd g2 (by omega)
  · exact absurd f2 (by omega)
  · exact absurd g1 (by omega)
  · exact absurd g2 (by omega)
  · exact Prod.ext e1 (Prod.ext e2 (le_antisymm h3 g3))

instance : IsTotal (QKey × String) entLE :=
  ⟨fun a b => keyLE_total a.1 b.1⟩

instance : IsTrans (QKey × String) entLE :=
  ⟨fun _ _ _ hab hbc => keyLE_trans hab hbc⟩

theorem sorted_foldl_enqueue {P V : Type} (l : List (JobDTO P V)) :
    ∀ q : MemoryQueue P V, q.queue.Sorted entLE →
      ((l.foldl (fun q j => (q.enqueue j).2) q).queue).Sorted entLE := by
  induction l with
  | nil =>
    intro q h
    simpa using h
  | cons j t ih =>
    intro q h
    rw [List.foldl_cons]
    apply ih
    unfold MemoryQueue.enqueue
    dsimp only
    exact List.Sorted.orderedInsert _ _ h

theorem mem_queue_foldl {P V : Type} (l : List (JobDTO P V)) (x : QKey × String) :
    ∀ q : MemoryQueue P V, x ∈ q.queue →
      x ∈ (l.foldl (fun q j => (q.enqueue j).2) q).queue := by
  induction l with
  | nil =>
    intro q h
    simpa using h
  | cons j t ih =>
    intro q h
    rw [List.foldl_cons]
    apply ih
    unfold MemoryQueue.enqueue
    dsimp only
    exact (List.mem_orderedInsert entLE).mpr (Or.inr h)

theorem mem_queue_enqueueAll {P V : Type} (l : List (JobDTO P V)) (j : JobDTO P V) :
    ∀ q : MemoryQueue P V, j ∈ l →
      (jobKey j, j.job_id) ∈ (l.foldl (fun q j => (q.enqueue j).2) q).queue := by
  induction l with
  | nil =>
    intro q h
    simp at h
  | cons j0 t ih =>
    intro q h
    rw [List.foldl_cons]
    rcases List.mem_cons.mp h with h | h
    · subst h
      apply mem_queue_foldl
      unfold MemoryQueue.enqueue
      dsimp only
      exact (List.mem_orderedInsert entLE).mpr (Or.inl rfl)
    · exact ih _ h

theorem regOK_enqueue {P V : Type} (q : MemoryQueue P V) (j : JobDTO P V)
    (h : RegOK q) : RegOK (q.enqueue j).2 := by
  intro e he
  unfold MemoryQueue.enqueue at he ⊢
  dsimp only at he ⊢
  rcases (List.mem_orderedInsert entLE).mp he with he | he
  · subst he
    exact ⟨j, alLookup_alSet_self _ _ _, rfl⟩
  · obtain ⟨j0, hj0, hid⟩ := h e he
    by_cases hk : e.2 = j.job_id
    · rw [hk]
      exact ⟨j, alLookup_alSet_self _ _ _, rfl⟩
    · refine ⟨j0, ?_, hid⟩
      rw [alLookup_alSet_ne _ _ _ _ (fun hh => hk hh.symm)]
      exact hj0

theorem regOK_foldl_enqueue {P V : Type} (l : List (JobDTO P V)) :
    ∀ q : MemoryQueue P V, RegOK q →
      RegOK (l.foldl (fun q j => (q.enqueue j).2) q) := by
  induction l with
  | nil =>
    intro q h
    simpa using h
  | cons j t ih =>
    intro q h
    rw [List.foldl_cons]
    exact ih _ (regOK_enqueue q j h)

theorem drainGo_eq_map {P V : Type} :
    ∀ (qs : List (QKey × String)) (q : MemoryQueue P V) (now : Nat),
      q.queue = qs → RegOK q →
      drainGo q qs.length now = qs.map (fun e => e.2) := by
  intro qs
  induction qs with
  | nil =>
    intro q now _hq _
    simp [drainGo]
  | cons e rest ih =>
    intro q now hq hreg
    obtain ⟨j0, hj0, hid⟩ := hreg e (by rw [hq]; exact List.mem_cons_self e rest)
    have hdq : q.dequeue now = (.job (j0.update_status .running now),
        { queue := rest, jobs := alSet q.jobs e.2 (j0.update_status .running now) }) := by
      unfold MemoryQueue.dequeue
      rw [hq]
      dsimp only
      rw [hj0]
    have hreg' : RegOK ({ queue := rest, jobs := alSet q.jobs e.2 (j0.update_status .running now) } : MemoryQueue P V) := by
      intro e' he'
      by_cases hk : e'.2 = e.2
      · rw [hk]
        refine ⟨j0.update_status .running now, alLookup_alSet_self _ _ _, ?_⟩
        rw [update_status_job_id]
        exact hid
      · obtain ⟨j1, hj1, hid1⟩ := hreg e' (by rw [hq]; exact List.mem_cons_of_mem e he')
        refine ⟨j1, ?_, hid1⟩
        rw [alLookup_alSet_ne _ _ _ _ (fun hh => hk hh.symm)]
        exact hj1
    rw [List.length_cons, drainGo, hdq]
    dsimp only
    rw [update_status_job_id, hid, List.map_cons]
    rw [ih _ now rfl hreg']

theorem sorted_positions {l : List (QKey × String)} (hs : l.Sorted entLE)
    {e1 e2 : QKey × String} (h1 : e1 ∈ l) (h2 : e2 ∈ l)
    (hle : keyLE e1.1 e2.1) (hne : e1.1 ≠ e2.1) :
    ∃ i1 i2 : Fin l.length, (i1 : Nat) < (i2 : Nat)
      ∧ l.get i1 = e1 ∧ l.get i2 = e2 := by
  obtain ⟨i1, hi1⟩ := List.get_of_mem h1
  obtain ⟨i2, hi2⟩ := List.get_of_mem h2
  refine ⟨i1, i2, ?_, hi1, hi2⟩
  rcases lt_trichotomy (i1 : Nat) (i2 : Nat) with h | h | h
  · exact h
  · exfalso
    apply hne
    have hgg : l.get i1 = l.get i2 := by
      congr 1
      exact Fin.ext h
    rw [hi1, hi2] at hgg
    rw [hgg]
  · exfalso
    have hrel := hs.rel_get_of_lt (show i2 < i1 from h)
    rw [hi1, hi2] at hrel
    exact hne (keyLE_antisymm hle hrel)

theorem jobKey_le_of_cases {P V : Type} {j1 j2 : JobDTO P V}
    (h : j1.priority.value > j2.priority.value
      ∨ (j1.priority = j2.priority ∧ j1.created_at < j2.created_at)
      ∨ (j1.priority = j2.priority ∧ j1.created_at = j2.created_at
          ∧ j1.job_id < j2.job_id)) :
    keyLE (jobKey j1) (jobKey j2) ∧ jobKey j1 ≠ jobKey j2 := by
  unfold jobKey keyLE
  dsimp only
  rcases h with h | ⟨hp, hc⟩ | ⟨hp, hc, hid⟩
  · constructor
    · exact Or.inl (by omega)
    · intro hk
      have h1 := congrArg Prod.fst hk
      dsimp only at h1
      omega
  · constructor
    · exact Or.inr ⟨by rw [hp], Or.inl hc⟩
    · intro hk
      have h1 := congrArg (fun x : QKey => x.2.1) hk
      dsimp only at h1
      omega
  · constructor
    · exact Or.inr ⟨by rw [hp], Or.inr ⟨hc, le_of_lt hid⟩⟩
    · intro hk
      have h1 := congrArg (fun x : QKey => x.2.2) hk
      dsimp only at h1
      exact absurd h1 (ne_of_lt hid)

/-- C3: among pending registered jobs, a strictly higher-priority job is
dequeued before a lower-priority one regardless of enqueue order; within
equal priority the earlier `created_at` wins, and the job id is the final
tiebreak. Concretely, enqueuing J1(LOW), J2(CRITICAL), J3(NORMAL) in that
order yields dequeues J2, J3, J1. -/
theorem C3_priority_order {P V : Type} (jobs : List (JobDTO P V))
    (j1 j2 : JobDTO P V) (h1 : j1 ∈ jobs) (h2 : j2 ∈ jobs)
    (hp1 : j1.status = JobStatus.pending) (hp2 : j2.status = JobStatus.pending)
    (now : Nat)
    (horder : j1.priority.value > j2.priority.value
      ∨ (j1.priority = j2.priority ∧ j1.created_at < j2.created_at)
      ∨ (j1.priority = j2.priority ∧ j1.created_at = j2.created_at
          ∧ j1.job_id < j2.job_id)) :
    (∃ i1 i2 : Nat, i1 < i2
      ∧ (drainIds (enqueueAll jobs) now).get? i1 = some j1.job_id
      ∧ (drainIds (enqueueAll jobs) now).get? i2 = some j2.job_id)
    ∧ drainIds (enqueueAll [scenarioJ1, scenarioJ2, scenarioJ3]) 10
        = ["J2", "J3", "J1"] := by
  constructor
  · have hsorted : ((enqueueAll jobs).queue).Sorted entLE := by
      unfold enqueueAll
      exact sorted_foldl_enqueue jobs (MemoryQueue.empty P V)
        (by simp [MemoryQueue.empty])
    have hm1 : (jobKey j1, j1.job_id) ∈ (enqueueAll jobs).queue := by
      unfold enqueueAll
      exact mem_queue_enqueueAll jobs j1 _ h1
    have hm2 : (jobKey j2, j2.job_id) ∈ (enqueueAll jobs).queue := by
      unfold enqueueAll
      exact mem_queue_enqueueAll jobs j2 _ h2
    have hkey := jobKey_le_of_cases horder
    obtain ⟨i1, i2, hlt, hg1, hg2⟩ := sorted_positions hsorted hm1 hm2 hkey.1 hkey.2
    have hreg : RegOK (enqueueAll jobs) := by
      unfold enqueueAll
      apply regOK_foldl_enqueue
      intro e he
      simp [MemoryQueue.empty] at he
    have hdrain : drainIds (enqueueAll jobs) now
        = ((enqueueAll jobs).queue).map (fun e => e.2) := by
      unfold drainIds
      exact drainGo_eq_map _ _ now rfl hreg
    simp only [List.get_eq_getElem] at hg1 hg2
    refine ⟨i1, i2, hlt, ?_, ?_⟩
    · rw [hdrain, List.get?_map, List.get?_eq_get i1.isLt]
      simp [hg1]
    · rw [hdrain, List.get?_map, List.get?_eq_get i2.isLt]
      simp [hg2]
  · decide

/-- Witness for C3: the three-job scenario itself, J2(CRITICAL) dequeued
before J3(NORMAL). -/
theorem C3_priority_order_witness :
    (∃ i1 i2 : Nat, i1 < i2
      ∧ (drainIds (enqueueAll [scenarioJ1, scenarioJ2, scenarioJ3]) 10).get? i1
          = some "J2"
      ∧ (drainIds (enqueueAll [scenarioJ1, scenarioJ2, scenarioJ3]) 10).get? i2
          = some "J3")
    ∧ drainIds (enqueueAll [scenarioJ1, scenarioJ2, scenarioJ3]) 10
        = ["J2", "J3", "J1"] :=
  C3_priority_order [scenarioJ1, scenarioJ2, scenarioJ3] scenarioJ2 scenarioJ3
    (by decide) (by decide) rfl rfl 10 (Or.inl (by decide))
